import Mathlib

/-!
Verification of the Parking-Surveyor geometry-snapping and metadata core.

The development shallowly embeds the algorithmic parts of `src/App.jsx`
(and the turf/geolib library routines it calls) over exact rational
arithmetic.  Coordinates are rational pairs in GeoJSON (lng, lat) order;
the geodesic point metric used by the JS libraries (haversine meters /
kilometers) is abstracted as a parameter `d : Pt → Pt → ℚ`, and projection
and intersection computations are modelled planarly, following the exact
formulas of the library code.  JS `Math.round` is modelled exactly as
`⌊q + 1/2⌋`.
-/

namespace ParkingSurveyor

/-- A coordinate in GeoJSON order (lng, lat), as the app hands points to turf. -/
structure Pt where
  lng : ℚ
  lat : ℚ
deriving DecidableEq

/-- JS Math.round: rounds half toward positive infinity. -/
def jsRound (q : ℚ) : ℤ := ⌊q + 1/2⌋

/-- Affine interpolation between two points. -/
def lerp (t : ℚ) (a b : Pt) : Pt :=
  ⟨a.lng + t * (b.lng - a.lng), a.lat + t * (b.lat - a.lat)⟩

/-- Absolute value on ℚ written with an explicit comparison so that `decide`
can evaluate it in the kernel. -/
def qabs (q : ℚ) : ℚ := if q < 0 then -q else q

/-- Taxicab plane metric: a concrete, exactly computable instance for the
abstract point metric parameter `d` used in witnesses and counterexamples. -/
def taxi (p q : Pt) : ℚ := qabs (p.lng - q.lng) + qabs (p.lat - q.lat)

/-- geolib getPathLength: total length of a path, summing the point metric
over consecutive pairs (geolib uses haversine meters; the metric is the
parameter `d`). -/
def getPathLength (d : Pt → Pt → ℚ) : List Pt → ℚ
  | a :: b :: rest => d a b + getPathLength d (b :: rest)
  | _ => 0

/-- Properties record of a Segment feature, as created by `handleCreated`
in App.jsx (images are (dataUrl, caption) pairs). -/
structure SegProps where
  _id : String
  category : String
  spaces : ℤ
  rules : String
  limitMins : ℤ
  street : String
  notes : String
  images : List (String × String)
  length_m : ℤ
  spacesEdited : Bool
deriving DecidableEq

/-- A Segment: GeoJSON line feature plus its properties. -/
structure Feature where
  geometry : List Pt
  properties : SegProps
deriving DecidableEq

/-- App.jsx `handleCreated`, "polyline" branch: a completed line draw becomes
a new Feature with auto-estimated capacity <code>max(1, round(len / 5.5))</code>
and the override flag unset. -/
def handleCreatedPolyline (d : Pt → Pt → ℚ) (fid : String) (coords : List Pt) : Feature :=
  let totalLength := getPathLength d coords
  let estimatedSpaces := max 1 (jsRound (totalLength / (11/2)))
  { geometry := coords
  , properties :=
    { _id := fid, category := "free", spaces := estimatedSpaces, rules := ""
    , limitMins := 120, street := "", notes := "", images := []
    , length_m := jsRound totalLength, spacesEdited := false } }

/-- App.jsx `onEdit` handler wired to each PolylineWithGeoman: on a geometry
edit of the feature whose id matches, recompute length_m and, when
spacesEdited is false, re-estimate spaces from the new length. -/
def onEditFeature (d : Pt → Pt → ℚ) (id : String) (geo : List Pt) (ff : Feature) : Feature :=
  if ff.properties._id ≠ id then ff
  else
    let newLen := getPathLength d geo
    let next : Feature :=
      { geometry := geo, properties := { ff.properties with length_m := jsRound newLen } }
    if !next.properties.spacesEdited then
      { next with properties :=
        { next.properties with spaces := max 1 (jsRound (newLen / (11/2))) } }
    else next

/-- A sequence of geometry edits (each an edited id plus new geometry),
applied in order through the onEdit handler. -/
def applyGeometryEdits (d : Pt → Pt → ℚ) (edits : List (String × List Pt)) (ff : Feature) : Feature :=
  edits.foldl (fun f e => onEditFeature d e.1 e.2 f) ff

/-- The fields collected by the MetadataForm and passed to onSave. -/
structure FormProps where
  category : String
  spaces : ℤ
  rules : String
  limitMins : ℤ
  street : String
  notes : String
  images : List (String × String)
deriving DecidableEq

/-- MetadataForm: the onChange handler of the "Approx. spaces" input mutates
`feature.properties.spacesEdited = true` on the feature object itself. -/
def metadataSpacesChange (ff : Feature) : Feature :=
  { ff with properties := { ff.properties with spacesEdited := true } }

/-- App.jsx `onSaveFeature`: the Save button merges the form fields into the
feature's properties, keeping `_id`, `length_m` and `spacesEdited`. -/
def onSaveFeature (ff : Feature) (props : FormProps) : Feature :=
  { ff with properties :=
    { ff.properties with
      category := props.category, spaces := props.spaces, rules := props.rules
    , limitMins := props.limitMins, street := props.street, notes := props.notes
    , images := props.images } }

/-- Squared planar distance, used for nearest-point comparisons (order
equivalent to the true distance, and exact over ℚ). -/
def sqDist (p q : Pt) : ℚ := (p.lng - q.lng) * (p.lng - q.lng) + (p.lat - q.lat) * (p.lat - q.lat)

/-- turf nearestPointOnLine restricted to one segment (planar model): the
projection of p onto the segment a-b, clamped to the segment. -/
def nearestOnSegment (a b p : Pt) : Pt :=
  let dx := b.lng - a.lng
  let dy := b.lat - a.lat
  let len2 := dx * dx + dy * dy
  if len2 = 0 then a
  else lerp (max 0 (min 1 (((p.lng - a.lng) * dx + (p.lat - a.lat) * dy) / len2))) a b

/-- turf nearestPointOnLine, inner loop: the closest candidate over the
remaining segments together with its segment index and squared distance;
strict comparison keeps the earliest segment on ties, as in turf. -/
def nearestAux (p : Pt) : List Pt → ℕ → Option (Pt × ℕ × ℚ)
  | a :: b :: rest, i =>
    let cand := nearestOnSegment a b p
    let cd := sqDist cand p
    match nearestAux p (b :: rest) (i + 1) with
    | none => some (cand, i, cd)
    | some (q, j, qd) => if qd < cd then some (q, j, qd) else some (cand, i, cd)
  | _, _ => none

/-- turf nearestPointOnLine: the closest point of the polyline to p, plus the
index of the segment it lies on. -/
def nearestPointOnLine (L : List Pt) (p : Pt) : Pt × ℕ :=
  match nearestAux p L 0 with
  | some (q, i, _) => (q, i)
  | none => (L.headD ⟨0, 0⟩, 0)

/-- turf lineSlice: portion of the line between the projections of the two
given points; the projection with the smaller segment index comes first, then
the line's own vertices strictly between the two segment indices, then the
other projection. -/
def lineSlice (startPt stopPt : Pt) (L : List Pt) : List Pt :=
  let sv := nearestPointOnLine L startPt
  let tv := nearestPointOnLine L stopPt
  let ends := if sv.2 ≤ tv.2 then (sv, tv) else (tv, sv)
  ends.1.1 :: ((List.range (ends.2.2 - ends.1.2)).map
    (fun k => L.getD (ends.1.2 + 1 + k) ⟨0, 0⟩)) ++ [ends.2.1]

/-- turf length: sum of the point metric over consecutive pairs. -/
def lineLen (d : Pt → Pt → ℚ) : List Pt → ℚ
  | a :: b :: rest => d a b + lineLen d (b :: rest)
  | _ => 0

/-- A recorded guide touch of the draw session: the snapped point plus the
index (identity) of the guide it snapped to. -/
structure SnapInfo where
  point : Pt
  guide : ℕ
deriving DecidableEq

/-- A node of the transient guide-network graph: a point plus the guides
through it (start/end carry one guide; intersection nodes carry two). -/
structure DNode where
  point : Pt
  guideIds : List ℕ
deriving DecidableEq

/-- An edge of the guide-network graph, as built by findShortestGuidePath:
endpoints are indices into the node list; dist is the weight the code
computes; guide is the shared guide the edge runs along. -/
structure GEdge where
  fromId : ℕ
  toId : ℕ
  dist : ℚ
  guide : ℕ
deriving DecidableEq

/-- turf lineIntersect on a pair of segments: the standard two-line solve used
by turf; parallel or collinear segments (zero determinant) yield nothing. -/
def segIntersectPt (p1 p2 p3 p4 : Pt) : Option Pt :=
  let denom := (p4.lat - p3.lat) * (p2.lng - p1.lng) - (p4.lng - p3.lng) * (p2.lat - p1.lat)
  if denom = 0 then none
  else
    let uA := ((p4.lng - p3.lng) * (p1.lat - p3.lat) - (p4.lat - p3.lat) * (p1.lng - p3.lng)) / denom
    let uB := ((p2.lng - p1.lng) * (p1.lat - p3.lat) - (p2.lat - p1.lat) * (p1.lng - p3.lng)) / denom
    if 0 ≤ uA ∧ uA ≤ 1 ∧ 0 ≤ uB ∧ uB ≤ 1 then some (lerp uA p1 p2) else none

/-- Consecutive-vertex segments of a polyline. -/
def segPairs (L : List Pt) : List (Pt × Pt) := L.zip L.tail

/-- turf lineIntersect on two polylines: all pairwise segment intersections. -/
def lineIntersectPts (L1 L2 : List Pt) : List Pt :=
  (segPairs L1).flatMap (fun s1 =>
    (segPairs L2).filterMap (fun s2 => segIntersectPt s1.1 s1.2 s2.1 s2.2))

/-- The two endpoints of a guide, as indexed by [0, length-1] in the code. -/
def endpointList (L : List Pt) : List Pt := [L.headD ⟨0, 0⟩, L.getLastD ⟨0, 0⟩]

/-- findShortestGuidePath: endpoint pairs of two guides closer than the
connection threshold (0.005, ~5m in the code's km metric) yield extra
connection nodes placed at the first guide's endpoint. -/
def closeEndpointNodes (d : Pt → Pt → ℚ) (L1 L2 : List Pt) : List Pt :=
  (endpointList L1).flatMap (fun p1 =>
    (endpointList L2).filterMap (fun p2 => if d p1 p2 < 5/1000 then some p1 else none))

/-- Ordered index pairs i < j below n, in the nested-loop order of the code. -/
def indexPairsBelow (n : ℕ) : List (ℕ × ℕ) :=
  (List.range n).flatMap (fun i => ((List.range n).filter (fun j => i < j)).map (fun j => (i, j)))

/-- findShortestGuidePath: intersection nodes discovered between every pair of
guides — proper line intersections first, then near-coincident endpoints. -/
def intersectionNodes (d : Pt → Pt → ℚ) (guides : List (List Pt)) : List DNode :=
  (indexPairsBelow guides.length).flatMap (fun ij =>
    let L1 := guides.getD ij.1 []
    let L2 := guides.getD ij.2 []
    (lineIntersectPts L1 L2).map (fun p => DNode.mk p [ij.1, ij.2])
      ++ (closeEndpointNodes d L1 L2).map (fun p => DNode.mk p [ij.1, ij.2]))

/-- findShortestGuidePath: the node list — start (index 0), end (index 1),
then all intersection nodes. -/
def buildNodes (d : Pt → Pt → ℚ) (guides : List (List Pt)) (startInfo endInfo : SnapInfo) :
    List DNode :=
  ⟨startInfo.point, [startInfo.guide]⟩ :: ⟨endInfo.point, [endInfo.guide]⟩
    :: intersectionNodes d guides

/-- findShortestGuidePath: the first guide shared by two nodes' guide sets. -/
def sharedGuide (g1 g2 : List ℕ) : Option ℕ := g1.find? (fun g => g2.contains g)

/-- findShortestGuidePath: edges connect node pairs sharing a guide, weighted
by the point metric between the two node points (turf.distance in the code). -/
def buildEdges (d : Pt → Pt → ℚ) (nodes : List DNode) : List GEdge :=
  (indexPairsBelow nodes.length).filterMap (fun ij =>
    match nodes.get? ij.1, nodes.get? ij.2 with
    | some n1, some n2 =>
      (sharedGuide n1.guideIds n2.guideIds).map
        (fun g => GEdge.mk ij.1 ij.2 (d n1.point n2.point) g)
    | _, _ => none)

/-- Comparison on optional distances: none models JS Infinity, and
Infinity < x is false for every x, as in the code's comparisons. -/
def optLt : Option ℚ → Option ℚ → Bool
  | some a, some b => a < b
  | some _, none => true
  | none, _ => false

/-- Addition with an optional left operand: Infinity + w = Infinity. -/
def optAdd : Option ℚ → ℚ → Option ℚ
  | some a, w => some (a + w)
  | none, _ => none

/-- Dijkstra relaxation of one edge: the edges.forEach body, relaxing a
neighbour of the current node that is still unvisited, in either edge
orientation.  Comparisons follow JS Infinity semantics through optLt/optAdd. -/
def relaxStep (current : ℕ) (unvisited : List ℕ)
    (st : (ℕ → Option ℚ) × (ℕ → Option (ℕ × GEdge))) (e : GEdge) :
    (ℕ → Option ℚ) × (ℕ → Option (ℕ × GEdge)) :=
  if e.fromId = current ∧ unvisited.contains e.toId then
    if optLt (optAdd (st.1 current) e.dist) (st.1 e.toId) then
      (fun i => if i = e.toId then optAdd (st.1 current) e.dist else st.1 i,
       fun i => if i = e.toId then some (current, e) else st.2 i)
    else st
  else if e.toId = current ∧ unvisited.contains e.fromId then
    if optLt (optAdd (st.1 current) e.dist) (st.1 e.fromId) then
      (fun i => if i = e.fromId then optAdd (st.1 current) e.dist else st.1 i,
       fun i => if i = e.fromId then some (current, e) else st.2 i)
    else st
  else st

/-- Dijkstra inner relaxation: fold the one-edge relaxation over all edges. -/
def relaxEdges (edges : List GEdge) (current : ℕ) (unvisited : List ℕ)
    (stDist : ℕ → Option ℚ) (stPrev : ℕ → Option (ℕ × GEdge)) :
    (ℕ → Option ℚ) × (ℕ → Option (ℕ × GEdge)) :=
  edges.foldl (relaxStep current unvisited) (stDist, stPrev)

/-- The undirected adjacency relation of the built edge list: the relation
Dijkstra relaxes along, in either orientation. -/
def EdgeRel (edges : List GEdge) (a b : ℕ) : Prop :=
  ∃ e ∈ edges, (e.fromId = a ∧ e.toId = b) ∨ (e.toId = a ∧ e.fromId = b)

/-- Dijkstra node selection: the unvisited node of least finite distance
(first strict improvement over Infinity, as in the JS loop); none when every
unvisited node is at Infinity. -/
def selectCurrent (stDist : ℕ → Option ℚ) (unvisited : List ℕ) : Option ℕ :=
  (unvisited.foldl (fun acc i =>
    match acc, stDist i with
    | none, some dv => some (i, dv)
    | some (_, m), some dv => if dv < m then some (i, dv) else acc
    | _, none => acc) none).map Prod.fst

/-- Dijkstra main loop (fuel-driven; the fuel exceeds the node count, so the
loop always stops the way the JS while loop does). -/
def dijkstraLoop (edges : List GEdge) (endId : ℕ) :
    ℕ → List ℕ → (ℕ → Option ℚ) → (ℕ → Option (ℕ × GEdge)) →
    (ℕ → Option ℚ) × (ℕ → Option (ℕ × GEdge))
  | 0, _, stDist, stPrev => (stDist, stPrev)
  | fuel + 1, unvisited, stDist, stPrev =>
    if unvisited.isEmpty then (stDist, stPrev)
    else
      match selectCurrent stDist unvisited with
      | none => (stDist, stPrev)
      | some current =>
        if current = endId then (stDist, stPrev)
        else
          let unvisited2 := unvisited.filter (fun i => i ≠ current)
          let st := relaxEdges edges current unvisited2 stDist stPrev
          dijkstraLoop edges endId fuel unvisited2 st.1 st.2

/-- Dijkstra from the start node (index 0) toward the end node (index 1). -/
def runDijkstra (edges : List GEdge) (n : ℕ) :
    (ℕ → Option ℚ) × (ℕ → Option (ℕ × GEdge)) :=
  dijkstraLoop edges 1 (n + 1) (List.range n)
    (fun i => if i = 0 then some 0 else none) (fun _ => none)

/-- One reconstructed step of the routed path. -/
structure PathSeg where
  fromIdx : ℕ
  toIdx : ℕ
  edge : GEdge
deriving DecidableEq

/-- Path reconstruction: walk the predecessor chain back from the end node,
collecting traversed edges in start-to-end order. -/
def walkPrev (stPrev : ℕ → Option (ℕ × GEdge)) : ℕ → ℕ → List PathSeg
  | 0, _ => []
  | fuel + 1, current =>
    match stPrev current with
    | none => []
    | some (pid, e) => walkPrev stPrev fuel pid ++ [⟨pid, current, e⟩]

/-- Path reconstruction: slice each traversed guide between the two endpoint
nodes and concatenate, dropping the shared junction point after the first
slice. -/
def buildFinalPath (guides : List (List Pt)) (nodes : List DNode) (segs : List PathSeg) :
    List Pt :=
  (segs.enum.foldl (fun acc se =>
    let guideCoords := guides.getD se.2.edge.guide []
    let fromPt := (nodes.getD se.2.fromIdx ⟨⟨0, 0⟩, []⟩).point
    let toPt := (nodes.getD se.2.toIdx ⟨⟨0, 0⟩, []⟩).point
    let sliced := lineSlice fromPt toPt guideCoords
    if se.1 = 0 then acc ++ sliced else acc ++ sliced.tail) [])

/-- App.jsx findShortestGuidePath: builds the transient guide network for a
query, runs Dijkstra from start, and reconstructs the routed geometry; null
(none) when no guides exist, when end stays at Infinity, or when the
reconstructed path is empty. -/
def findShortestGuidePath (d : Pt → Pt → ℚ) (guides : List (List Pt))
    (startInfo endInfo : SnapInfo) : Option (List Pt) :=
  if guides.isEmpty then none
  else
    let nodes := buildNodes d guides startInfo endInfo
    let edges := buildEdges d nodes
    let dp := runDijkstra edges nodes.length
    match dp.1 1 with
    | none => none
    | some _ =>
      let segs := walkPrev dp.2 nodes.length 1
      let path := buildFinalPath guides nodes segs
      if path.isEmpty then none else some path

/-- App.jsx pm:create handler, Line branch: with exactly two recorded guide
touches, slice the single shared guide directly, or route across the network;
a null or empty routing result keeps the raw drawn geometry. -/
def pmCreateLineGeometry (d : Pt → Pt → ℚ) (guides : List (List Pt))
    (touches : List SnapInfo) (raw : List Pt) : List Pt :=
  match touches with
  | [t0, t1] =>
    if t0.guide = t1.guide then
      lineSlice t0.point t1.point (guides.getD t0.guide [])
    else
      match findShortestGuidePath d guides t0 t1 with
      | some p => if p.isEmpty then raw else p
      | none => raw
  | _ => raw

/-- turf lineIntersect, parameter form: the parameter uA of the intersection
along the first segment, when the two segments properly intersect. -/
def segIntersectParam (p1 p2 p3 p4 : Pt) : Option ℚ :=
  let denom := (p4.lat - p3.lat) * (p2.lng - p1.lng) - (p4.lng - p3.lng) * (p2.lat - p1.lat)
  if denom = 0 then none
  else
    let uA := ((p4.lng - p3.lng) * (p1.lat - p3.lat) - (p4.lat - p3.lat) * (p1.lng - p3.lng)) / denom
    let uB := ((p2.lng - p1.lng) * (p1.lat - p3.lat) - (p2.lat - p1.lat) * (p1.lng - p3.lng)) / denom
    if 0 ≤ uA ∧ uA ≤ 1 ∧ 0 ≤ uB ∧ uB ≤ 1 then some uA else none

/-- Insertion into a sorted list of rationals. -/
def insertRat (x : ℚ) : List ℚ → List ℚ
  | [] => [x]
  | y :: ys => if x ≤ y then x :: y :: ys else y :: insertRat x ys

/-- Insertion sort for rationals (cut parameters along a segment). -/
def sortRats : List ℚ → List ℚ
  | [] => []
  | x :: xs => insertRat x (sortRats xs)

/-- Split parameters along one line segment: the sorted parameters of its
intersections with the polygon border edges. -/
def segCutParams (border : List (Pt × Pt)) (a b : Pt) : List ℚ :=
  sortRats (border.filterMap (fun e => segIntersectParam a b e.1 e.2))

/-- turf lineSplit, one segment: emit a finished piece at each cut parameter
and continue the current piece; returns the finished pieces and the piece
still open after reaching b. -/
def splitSegGo (a b : Pt) : List ℚ → List Pt → List (List Pt) × List Pt
  | [], cur => ([], cur ++ [b])
  | u :: rest, cur =>
    let r := splitSegGo a b rest [lerp u a b]
    ((cur ++ [lerp u a b]) :: r.1, r.2)

/-- turf lineSplit, walking the whole line: process each segment in turn,
carrying the open piece (which always ends at the vertex about to be
processed). -/
def splitWalk (border : List (Pt × Pt)) : List Pt → List Pt → List (List Pt)
  | a :: b :: rest, cur =>
    let r := splitSegGo a b (segCutParams border a b) cur
    r.1 ++ splitWalk border (b :: rest) r.2
  | _, cur => [cur]

/-- turf lineSplit by the polygon border: no intersection points at all gives
an empty collection (as turf does, and as the caller checks); otherwise the
pieces cut at every border crossing. -/
def splitLine (border : List (Pt × Pt)) (L : List Pt) : List (List Pt) :=
  match L with
  | a :: _ :: _ =>
    if (segPairs L).all (fun s => (segCutParams border s.1 s.2).isEmpty) then []
    else splitWalk border L [a]
  | _ => []

/-- turf polygonToLine: the border edges of the (closed) polygon ring. -/
def ringEdges (ring : List Pt) : List (Pt × Pt) := ring.zip ring.tail

/-- turf booleanPointInPolygon preprocessing: drop the closing duplicate
vertex of a closed ring. -/
def ringVerts (ring : List Pt) : List Pt :=
  if 1 < ring.length ∧ ring.head? = ring.getLast? then ring.dropLast else ring

/-- The (current, previous) vertex pairs of the ring, in the order of turf's
inRing loop (i runs forward, j trails cyclically behind). -/
def ringPairs (r : List Pt) : List (Pt × Pt) :=
  r.zip (r.getLastD ⟨0, 0⟩ :: r.dropLast)

/-- turf inRing main loop: the even-odd ray cast with turf's explicit
on-boundary test; a boundary hit returns the negation of ignoreBoundary. -/
def inRingLoop (pt : Pt) (ig : Bool) : List (Pt × Pt) → Bool → Bool
  | [], inside => inside
  | (vi, vj) :: rest, inside =>
    if pt.lat * (vi.lng - vj.lng) + vi.lat * (vj.lng - pt.lng) + vj.lat * (pt.lng - vi.lng) = 0
        ∧ (vi.lng - pt.lng) * (vj.lng - pt.lng) ≤ 0 ∧ (vi.lat - pt.lat) * (vj.lat - pt.lat) ≤ 0 then
      !ig
    else
      inRingLoop pt ig rest
        (if ((pt.lat < vi.lat) ≠ (pt.lat < vj.lat))
            ∧ pt.lng < (vj.lng - vi.lng) * (pt.lat - vi.lat) / (vj.lat - vi.lat) + vi.lng
          then !inside else inside)

/-- turf booleanPointInPolygon on a single closed ring; ig = ignoreBoundary
(false in the app code, so boundary points count as inside). -/
def inRingB (pt : Pt) (ring : List Pt) (ig : Bool) : Bool :=
  inRingLoop pt ig (ringPairs (ringVerts ring)) false

/-- turf along (planar form): walk the segments accumulating the metric until
the target travel is inside the current segment, then interpolate within it. -/
def alongPts (d : Pt → Pt → ℚ) : ℚ → List Pt → Pt
  | _, [] => ⟨0, 0⟩
  | _, [a] => a
  | target, a :: b :: rest =>
    if target ≤ d a b then (if d a b = 0 then a else lerp (target / d a b) a b)
    else alongPts d (target - d a b) (b :: rest)

/-- The midpoint used by clipLineToPolygon's collect: the point at
max(0, length/2) along the piece. -/
def midPt (d : Pt → Pt → ℚ) (ls : List Pt) : Pt :=
  alongPts d (max 0 (lineLen d ls / 2)) ls

/-- clipLineToPolygon's collect: does the piece's midpoint pass the
point-in-polygon test (boundary included, as in the code)? -/
def collectPiece (d : Pt → Pt → ℚ) (ring : List Pt) (ls : List Pt) : Bool :=
  inRingB (midPt d ls) ring false

/-- App.jsx clipLineToPolygon: split the line by the polygon border; with no
split pieces, keep the whole line iff its midpoint passes the test; otherwise
keep exactly the pieces whose midpoints pass the test. -/
def clipLineToPolygon (d : Pt → Pt → ℚ) (L : List Pt) (ring : List Pt) : List (List Pt) :=
  let split := splitLine (ringEdges ring) L
  if split.isEmpty then (if collectPiece d ring L then [L] else [])
  else split.filter (collectPiece d ring)

/-- Membership of a point in the trace (point set) of a polyline. -/
def onTrace (p : Pt) : List Pt → Prop
  | [] => False
  | [a] => p = a
  | a :: b :: rest => (∃ u : ℚ, 0 ≤ u ∧ u ≤ 1 ∧ p = lerp u a b) ∨ onTrace p (b :: rest)

/-- (a, b) is a consecutive vertex pair of the polyline. -/
def AdjPair : List Pt → Pt → Pt → Prop
  | a :: b :: rest, x, y => (x = a ∧ y = b) ∨ AdjPair (b :: rest) x y
  | _, _, _ => False

/-- Both points lie on one segment of L (as interpolants of a consecutive
pair), so the chord between them stays on L's trace. -/
def SubChord (L : List Pt) (x y : Pt) : Prop :=
  ∃ a b u v, AdjPair L a b ∧ 0 ≤ u ∧ u ≤ 1 ∧ 0 ≤ v ∧ v ≤ 1
    ∧ x = lerp u a b ∧ y = lerp v a b

/-- Every consecutive pair of the piece is a sub-chord of L. -/
def ChainIn (L : List Pt) : List Pt → Prop
  | x :: y :: rest => SubChord L x y ∧ ChainIn L (y :: rest)
  | _ => True

/-- The distance between two points measured along a given guide, in the
spec's words (section 3, GuideNetwork): the length of the guide slice between
the two nodes.  Used only to compare the code's edge weights against the
claimed weighting. -/
def alongGuideDist (d : Pt → Pt → ℚ) (guides : List (List Pt)) (g : ℕ) (p q : Pt) : ℚ :=
  lineLen d (lineSlice p q (guides.getD g []))

/-- Concrete guide set for the routing counterexamples: a bent guide 0 ending
at (1,1) and a straight guide 1 starting there. -/
def cGuides : List (List Pt) := [[⟨0,0⟩, ⟨2,0⟩, ⟨1,1⟩], [⟨1,1⟩, ⟨1,3⟩]]

/-- Start touch for the routing counterexample: the start of guide 0. -/
def cStart : SnapInfo := ⟨⟨0,0⟩, 0⟩

/-- End touch for the routing counterexample: the far end of guide 1. -/
def cEnd : SnapInfo := ⟨⟨1,3⟩, 1⟩

/-- A closed square ring (study-area polygon) used in the clipping
counterexample and witness. -/
def sqRing : List Pt := [⟨0,0⟩, ⟨2,0⟩, ⟨2,2⟩, ⟨0,2⟩, ⟨0,0⟩]

/-- One raw element of an Overpass response, as the parser inspects it. -/
structure OsmElement where
  etype : String
  hasGeometry : Bool
  geom : List Pt
  oid : ℕ
deriving DecidableEq

/-- A normalized road feature: line coordinates plus the server id. -/
structure RoadFeature where
  coords : List Pt
  rid : ℕ
deriving DecidableEq

/-- fetchOSMRoadsForBBox result parsing: keep way elements that carry a
geometry array, as lineStrings tagged with the element id. -/
def parseElements (elements : List OsmElement) : List RoadFeature :=
  (elements.filter (fun el => el.etype = "way" && el.hasGeometry)).map
    (fun el => ⟨el.geom, el.oid⟩)

/-- The outcome of one fetch attempt against one endpoint: a parsed JSON
body on an ok response, a non-ok HTTP status, an abort of the 30s timeout,
or another network error. -/
inductive FetchOutcome where
  | success (elements : List OsmElement)
  | httpStatus (code : ℕ)
  | timeout
  | networkError (msg : String)
deriving DecidableEq

/-- Observable events of the fetch loop: attempts (endpoint, retry) and the
sleeps between retries. -/
inductive FetchEv where
  | attempt (endpointIdx retryIdx : ℕ)
  | delayMs (ms : ℕ)
deriving DecidableEq

/-- The error message recorded in lastErr for a failed attempt outcome. -/
def errMsgOf : FetchOutcome → String
  | .timeout => "Request timed out after 30 seconds"
  | .httpStatus c =>
    if c = 504 ∨ c = 502 ∨ c = 503 then
      "Server temporarily unavailable (" ++ toString c ++ ")"
    else "HTTP " ++ toString c
  | .networkError m => m
  | .success _ => ""

/-- fetchOSMRoadsForBBox inner retry loop for one endpoint: `left` retries
remain out of maxRetries; a 5xx or a timeout sleeps before retrying when a
retry remains, other failures go straight to the next attempt; any failure on
the last retry falls through to the next endpoint.  Returns the body on
success, the updated lastErr, and the event trace. -/
def tryEndpointGo (responses : ℕ → ℕ → FetchOutcome) (eIdx maxRetries : ℕ) :
    ℕ → Option String → Option (List OsmElement) × Option String × List FetchEv
  | 0, lastErr => (none, lastErr, [])
  | left + 1, lastErr =>
    let retry := maxRetries - (left + 1)
    match responses eIdx retry with
    | .success els => (some els, lastErr, [.attempt eIdx retry])
    | .httpStatus c =>
      if c = 504 ∨ c = 502 ∨ c = 503 then
        if 0 < left then
          let r := tryEndpointGo responses eIdx maxRetries left
            (some (errMsgOf (.httpStatus c)))
          (r.1, r.2.1, .attempt eIdx retry :: .delayMs 2000 :: r.2.2)
        else (none, some (errMsgOf (.httpStatus c)), [.attempt eIdx retry])
      else
        let r := tryEndpointGo responses eIdx maxRetries left
          (some (errMsgOf (.httpStatus c)))
        (r.1, r.2.1, .attempt eIdx retry :: r.2.2)
    | .timeout =>
      if 0 < left then
        let r := tryEndpointGo responses eIdx maxRetries left
          (some (errMsgOf .timeout))
        (r.1, r.2.1, .attempt eIdx retry :: .delayMs 1000 :: r.2.2)
      else (none, some (errMsgOf .timeout), [.attempt eIdx retry])
    | .networkError m =>
      let r := tryEndpointGo responses eIdx maxRetries left (some m)
      (r.1, r.2.1, .attempt eIdx retry :: r.2.2)

/-- fetchOSMRoadsForBBox endpoint loop: try each endpoint in order with up to
2 attempts; the first success parses and returns immediately; exhaustion of
every endpoint raises the descriptive network error built from lastErr. -/
def fetchLoop (responses : ℕ → ℕ → FetchOutcome) :
    List ℕ → Option String → Except String (List RoadFeature) × List FetchEv
  | [], lastErr =>
    (.error ("Unable to load street data: " ++ lastErr.getD "Overpass request failed"
      ++ ". Please try again or check your internet connection."), [])
  | eIdx :: restEndpoints, lastErr =>
    let r := tryEndpointGo responses eIdx 2 2 lastErr
    match r.1 with
    | some els => (.ok (parseElements els), r.2.2)
    | none =>
      let r2 := fetchLoop responses restEndpoints r.2.1
      (r2.1, r.2.2 ++ r2.2)

/-- App.jsx fetchOSMRoadsForBBox: the three Overpass endpoints in their fixed
order, starting with no recorded error. -/
def fetchOSMRoadsForBBox (responses : ℕ → ℕ → FetchOutcome) :
    Except String (List RoadFeature) × List FetchEv :=
  fetchLoop responses [0, 1, 2] none

/-- Count of attempt events against one endpoint in a trace. -/
def countAttemptsAt (e : ℕ) (tr : List FetchEv) : ℕ :=
  (tr.filter (fun ev => match ev with | .attempt e' _ => e' == e | _ => false)).length

/-- Is the outcome a successful response? -/
def isSuccessOutcome : FetchOutcome → Bool
  | .success _ => true
  | _ => false

/-- Endpoint behaviour of the fetch-fallback scenario: the first two
endpoints always time out, the third returns the body d. -/
def scenarioResponses (dBody : List OsmElement) : ℕ → ℕ → FetchOutcome :=
  fun e _ => if e = 2 then .success dBody else .timeout

/-- turf bbox of a ring: (minLng, minLat, maxLng, maxLat). -/
def bboxOfRing (ring : List Pt) : (ℚ × ℚ) × (ℚ × ℚ) :=
  match ring with
  | [] => ((0, 0), (0, 0))
  | p :: rest =>
    rest.foldl (fun bb q =>
      ((min bb.1.1 q.lng, min bb.1.2 q.lat), (max bb.2.1 q.lng, max bb.2.2 q.lat)))
      ((p.lng, p.lat), (p.lng, p.lat))

/-- The reactive state of the SnapGuides component around maybeFetch:
the current boundary, the lastBBoxRef and fetchingRef refs, the boundary
captured by the in-flight maybeFetch closure, the bbox the stored roads
answer, and the boundary the current guides were built from. -/
structure SnapGuidesState where
  boundary : List Pt
  lastBBox : Option ((ℚ × ℚ) × (ℚ × ℚ))
  fetching : Bool
  pendingBoundary : Option (List Pt)
  roadsFor : Option ((ℚ × ℚ) × (ℚ × ℚ))
  guidesFor : Option (List Pt)
deriving DecidableEq

/-- App.jsx maybeFetch, called with the boundary captured at call time: with
no valid boundary everything clears; with an unchanged bbox the guides are
rebuilt; while a fetch is in flight the call returns without starting
anything (the new boundary's fetch is dropped); otherwise a fetch for the
current boundary starts. -/
def maybeFetchStep (st : SnapGuidesState) : SnapGuidesState :=
  if st.boundary.length < 3 then
    { st with guidesFor := none, roadsFor := none, lastBBox := none }
  else if st.lastBBox = some (bboxOfRing st.boundary) then
    { st with guidesFor := some st.boundary }
  else if st.fetching then st
  else { st with fetching := true, pendingBoundary := some st.boundary }

/-- App.jsx ps:boundary-finalized handler: the new boundary is committed,
lastBBoxRef is reset, the guides are removed, and maybeFetch runs. -/
def boundaryFinalized (st : SnapGuidesState) (b : List Pt) : SnapGuidesState :=
  maybeFetchStep { st with boundary := b, lastBBox := none, guidesFor := none }

/-- The in-flight fetch resolving: the awaiting maybeFetch closure stores the
roads, sets lastBBoxRef to the bbox it fetched for, and rebuilds guides from
the boundary it captured — with no comparison against the currently active
boundary. -/
def fetchResolved (st : SnapGuidesState) : SnapGuidesState :=
  match st.pendingBoundary with
  | none => st
  | some pb =>
    { st with
      roadsFor := some (bboxOfRing pb)
      lastBBox := some (bboxOfRing pb)
      guidesFor := some pb
      fetching := false
      pendingBoundary := none }

/-- Triangle A of the stale-fetch scenario. -/
def ringA : List Pt := [⟨0,0⟩, ⟨1,0⟩, ⟨0,1⟩]

/-- Triangle B of the stale-fetch scenario, far from A. -/
def ringB : List Pt := [⟨10,10⟩, ⟨12,10⟩, ⟨10,12⟩]

/-- A parsed JSON value.  JSON.stringify/JSON.parse round a JVal through text
unchanged, so the text serialization is modelled as the identity on parsed
values; a failed JSON.parse is modelled as none at the import entry. -/
inductive JVal where
  | null
  | bool (b : Bool)
  | num (q : ℚ)
  | str (s : String)
  | arr (xs : List JVal)
  | obj (fields : List (String × JVal))

/-- JS property access data.key on a parsed object (keys are unique in
parsed documents); undefined on non-objects and missing keys. -/
def getField (v : JVal) (key : String) : Option JVal :=
  match v with
  | .obj fields => (fields.find? (fun kv => kv.1 == key)).map Prod.snd
  | _ => none

/-- The App state touched by import/export: the features array (opaque
parsed feature objects) and the boundary (null or an array, as in React
state). -/
structure SurveyState where
  features : List JVal
  boundary : JVal

/-- App.jsx onExport: the persistence document {type, version, features,
boundary}. -/
def onExportModel (st : SurveyState) : JVal :=
  .obj [("type", .str "Survey"), ("version", .num 1),
        ("features", .arr st.features), ("boundary", st.boundary)]

/-- App.jsx onImport: a Survey document with a features array replaces the
features, and its boundary replaces the boundary only when it is an array; a
bare FeatureCollection replaces only the features; anything else (including
unparseable input, none) leaves the state unchanged behind an alert. -/
def onImportModel (doc : Option JVal) (st : SurveyState) : SurveyState :=
  match doc with
  | none => st
  | some data =>
    match getField data "type", getField data "features" with
    | some (.str t), some (.arr fs) =>
      if t = "Survey" then
        { features := fs
        , boundary :=
            match getField data "boundary" with
            | some (.arr bs) => .arr bs
            | _ => st.boundary }
      else if t = "FeatureCollection" then { st with features := fs }
      else st
    | _, _ => st

/-- Claim C1: a Segment created from a completed polyline draw, and any
geometry edit of a Segment whose override flag is false, gets capacity
<code>max(1, round(length / 5.5))</code> of the recomputed path length of its
current geometry; in particular a new Segment of length 55 has capacity 10. -/
theorem created_and_edited_capacity (d : Pt → Pt → ℚ) (fid id : String)
    (coords geo : List Pt) (ff : Feature) :
    ((handleCreatedPolyline d fid coords).properties.spaces
        = max 1 (jsRound (getPathLength d coords / (11/2)))
      ∧ (handleCreatedPolyline d fid coords).properties.spacesEdited = false)
    ∧ (ff.properties._id = id → ff.properties.spacesEdited = false →
        (onEditFeature d id geo ff).properties.spaces
          = max 1 (jsRound (getPathLength d geo / (11/2))))
    ∧ (getPathLength d coords = 55 →
        (handleCreatedPolyline d fid coords).properties.spaces = 10) := by
  refine ⟨⟨rfl, rfl⟩, ?_, ?_⟩
  · intro hid hflag
    simp [onEditFeature, hid, hflag]
  · intro h55
    simp only [handleCreatedPolyline, h55]
    norm_num [jsRound]

/-- Witness for created_and_edited_capacity: a feature of taxicab length 3
with the flag unset, edited, gets capacity max(1, round(3/5.5)) = 1; and a
geometry of total length 55 yields capacity 10 at creation. -/
theorem created_and_edited_capacity_witness :
    ((onEditFeature taxi "a" [⟨0,0⟩, ⟨0,3⟩]
        ⟨[], "a", "free", 7, "", 120, "", "", [], 0, false⟩).properties.spaces
      = max 1 (jsRound (getPathLength taxi [⟨0,0⟩, ⟨0,3⟩] / (11/2))))
    ∧ (handleCreatedPolyline taxi "b" [⟨0,0⟩, ⟨0,55⟩]).properties.spaces = 10 := by
  refine ⟨(created_and_edited_capacity taxi "a" "a" [] [⟨0,0⟩, ⟨0,3⟩]
      ⟨[], "a", "free", 7, "", 120, "", "", [], 0, false⟩).2.1 rfl rfl, ?_⟩
  exact (created_and_edited_capacity taxi "b" "b" [⟨0,0⟩, ⟨0,55⟩] []
    ⟨[], "b", "free", 0, "", 120, "", "", [], 0, false⟩).2.2
    (by norm_num [getPathLength, taxi, qabs])

/-- Helper: a geometry edit never changes spaces or the override flag of a
feature whose override flag is set. -/
theorem onEditFeature_flag_true (d : Pt → Pt → ℚ) (id : String) (geo : List Pt)
    (ff : Feature) (h : ff.properties.spacesEdited = true) :
    (onEditFeature d id geo ff).properties.spaces = ff.properties.spaces
    ∧ (onEditFeature d id geo ff).properties.spacesEdited = true := by
  unfold onEditFeature
  by_cases hid : ff.properties._id ≠ id
  · simp [hid, h]
  · simp [hid, h]

/-- Claim C2: once a Segment's override flag is true, no sequence of geometry
edits changes its capacity (and the flag stays true); typing in the capacity
field of the metadata form sets the flag true, a metadata Save keeps the flag
and is the operation that sets capacity. -/
theorem override_flag_invariant (d : Pt → Pt → ℚ) (ff : Feature)
    (edits : List (String × List Pt)) (props : FormProps) :
    (ff.properties.spacesEdited = true →
        (applyGeometryEdits d edits ff).properties.spaces = ff.properties.spaces
      ∧ (applyGeometryEdits d edits ff).properties.spacesEdited = true)
    ∧ (metadataSpacesChange ff).properties.spacesEdited = true
    ∧ (onSaveFeature ff props).properties.spaces = props.spaces
    ∧ (onSaveFeature ff props).properties.spacesEdited = ff.properties.spacesEdited := by
  refine ⟨?_, rfl, rfl, rfl⟩
  intro h
  induction edits generalizing ff with
  | nil => exact ⟨rfl, h⟩
  | cons e rest ih =>
    have h1 := onEditFeature_flag_true d e.1 e.2 ff h
    have h2 := ih (onEditFeature d e.1 e.2 ff) h1.2
    exact ⟨h2.1.trans h1.1, h2.2⟩

/-- Witness for override_flag_invariant: a feature with the flag set keeps
capacity 7 across a concrete two-edit sequence, and the form operations
behave as stated. -/
theorem override_flag_invariant_witness :
    ((applyGeometryEdits taxi [("a", [⟨0,0⟩, ⟨0,9⟩]), ("a", [⟨0,0⟩, ⟨0,20⟩])]
        ⟨[], "a", "free", 7, "", 120, "", "", [], 0, true⟩).properties.spaces = 7
      ∧ (applyGeometryEdits taxi [("a", [⟨0,0⟩, ⟨0,9⟩]), ("a", [⟨0,0⟩, ⟨0,20⟩])]
        ⟨[], "a", "free", 7, "", 120, "", "", [], 0, true⟩).properties.spacesEdited = true)
    ∧ (metadataSpacesChange ⟨[], "a", "free", 7, "", 120, "", "", [], 0, false⟩).properties.spacesEdited
        = true :=
  ⟨(override_flag_invariant taxi ⟨[], "a", "free", 7, "", 120, "", "", [], 0, true⟩
      [("a", [⟨0,0⟩, ⟨0,9⟩]), ("a", [⟨0,0⟩, ⟨0,20⟩])]
      ⟨"free", 0, "", 0, "", "", []⟩).1 rfl,
    (override_flag_invariant taxi ⟨[], "a", "free", 7, "", 120, "", "", [], 0, false⟩
      [] ⟨"free", 0, "", 0, "", "", []⟩).2.1⟩

/-- Claim C3: two touches on the same guide finalize the line as the slice of
that one guide between the two snapped points; for a guide of length 100 with
touches projecting to 10 and 90 along it, the finalized line has length 80. -/
theorem same_guide_fast_path (d : Pt → Pt → ℚ) (guides : List (List Pt))
    (t0 t1 : SnapInfo) (raw : List Pt) :
    (t0.guide = t1.guide →
      pmCreateLineGeometry d guides [t0, t1] raw
        = lineSlice t0.point t1.point (guides.getD t0.guide []))
    ∧ (lineLen taxi [⟨0,0⟩, ⟨100,0⟩] = 100
      ∧ (nearestPointOnLine [⟨0,0⟩, ⟨100,0⟩] ⟨10,-3⟩).1 = ⟨10,0⟩
      ∧ (nearestPointOnLine [⟨0,0⟩, ⟨100,0⟩] ⟨90,4⟩).1 = ⟨90,0⟩
      ∧ lineLen taxi (lineSlice ⟨0,0⟩ ⟨10,0⟩ [⟨0,0⟩, ⟨100,0⟩]) = 10
      ∧ lineLen taxi (lineSlice ⟨0,0⟩ ⟨90,0⟩ [⟨0,0⟩, ⟨100,0⟩]) = 90
      ∧ pmCreateLineGeometry taxi [[⟨0,0⟩, ⟨100,0⟩]] [⟨⟨10,0⟩, 0⟩, ⟨⟨90,0⟩, 0⟩]
          [⟨10,-3⟩, ⟨90,4⟩] = [⟨10,0⟩, ⟨90,0⟩]
      ∧ lineLen taxi [⟨10,0⟩, ⟨90,0⟩] = 80) := by
  constructor
  · intro hg
    simp [pmCreateLineGeometry, hg]
  · refine ⟨by norm_num [lineLen, taxi, qabs], ?_, ?_, ?_, ?_, ?_,
      by norm_num [lineLen, taxi, qabs]⟩
    · norm_num [nearestPointOnLine, nearestAux, nearestOnSegment, sqDist, lerp]
    · norm_num [nearestPointOnLine, nearestAux, nearestOnSegment, sqDist, lerp]
    · norm_num [lineSlice, lineLen, taxi, qabs, nearestPointOnLine, nearestAux,
        nearestOnSegment, sqDist, lerp]
    · norm_num [lineSlice, lineLen, taxi, qabs, nearestPointOnLine, nearestAux,
        nearestOnSegment, sqDist, lerp]
    · norm_num [pmCreateLineGeometry, lineSlice, nearestPointOnLine, nearestAux,
        nearestOnSegment, sqDist, lerp]

/-- Witness for same_guide_fast_path: the fast path applied at the concrete
100-long guide with touches at 10 and 90. -/
theorem same_guide_fast_path_witness :
    pmCreateLineGeometry taxi [[⟨0,0⟩, ⟨100,0⟩]] [⟨⟨10,0⟩, 0⟩, ⟨⟨90,0⟩, 0⟩]
        [⟨10,-3⟩, ⟨90,4⟩]
      = lineSlice ⟨10,0⟩ ⟨90,0⟩ ([[⟨0,0⟩, ⟨100,0⟩]].getD 0 []) :=
  (same_guide_fast_path taxi [[⟨0,0⟩, ⟨100,0⟩]] ⟨⟨10,0⟩, 0⟩ ⟨⟨90,0⟩, 0⟩
    [⟨10,-3⟩, ⟨90,4⟩]).1 rfl

/-- Helper: the node list of the routing counterexample evaluates to start,
end and two coincident intersection nodes at (1,1). -/
theorem cNodes_eval :
    buildNodes taxi cGuides cStart cEnd
      = [⟨⟨0,0⟩, [0]⟩, ⟨⟨1,3⟩, [1]⟩, ⟨⟨1,1⟩, [0,1]⟩, ⟨⟨1,1⟩, [0,1]⟩] := by
  norm_num [buildNodes, intersectionNodes, cGuides, cStart, cEnd, indexPairsBelow,
    lineIntersectPts, segPairs, segIntersectPt, closeEndpointNodes, endpointList,
    lerp, taxi, qabs, List.range_succ, List.filterMap_cons]

/-- Helper: the edge list of the routing counterexample. -/
theorem cEdges_eval :
    buildEdges taxi [⟨⟨0,0⟩, [0]⟩, ⟨⟨1,3⟩, [1]⟩, ⟨⟨1,1⟩, [0,1]⟩, ⟨⟨1,1⟩, [0,1]⟩]
      = [⟨0,2,2,0⟩, ⟨0,3,2,0⟩, ⟨1,2,2,1⟩, ⟨1,3,2,1⟩, ⟨2,3,0,0⟩] := by
  norm_num [buildEdges, indexPairsBelow, sharedGuide, taxi, qabs, List.find?,
    List.range_succ, List.filterMap_cons]

/-- Counterexample to claim C4: in the graph built for a routing query over
cGuides, the edge from the start node (0,0) to the intersection node (1,1)
has weight 2 — the point-metric (straight) distance — while the distance from
(0,0) to (1,1) measured along the shared guide 0 is 4. -/
theorem edge_weight_counterexample :
    ∃ e ∈ buildEdges taxi (buildNodes taxi cGuides cStart cEnd),
      e.dist ≠ alongGuideDist taxi cGuides e.guide
        ((buildNodes taxi cGuides cStart cEnd).getD e.fromId ⟨⟨0,0⟩, []⟩).point
        ((buildNodes taxi cGuides cStart cEnd).getD e.toId ⟨⟨0,0⟩, []⟩).point := by
  refine ⟨⟨0,2,2,0⟩, ?_, ?_⟩
  · rw [cNodes_eval, cEdges_eval]
    simp
  · rw [cNodes_eval]
    norm_num [alongGuideDist, cGuides, lineSlice, lineLen, taxi, qabs,
      nearestPointOnLine, nearestAux, nearestOnSegment, sqDist, lerp, List.range_succ]

/-- Claim C4 (amended): every edge of the guide-network graph connects two
nodes that share a common guide, and its weight is the point-metric
(straight-line) distance between the two node points — not the distance
measured along the shared guide. -/
theorem edges_share_guide_straight_weight (d : Pt → Pt → ℚ) (nodes : List DNode)
    (e : GEdge) (he : e ∈ buildEdges d nodes) :
    ∃ n1 n2, nodes.get? e.fromId = some n1 ∧ nodes.get? e.toId = some n2
      ∧ e.guide ∈ n1.guideIds ∧ e.guide ∈ n2.guideIds
      ∧ e.dist = d n1.point n2.point := by
  unfold buildEdges at he
  obtain ⟨ij, hij, hmem⟩ := List.mem_filterMap.mp he
  cases h1 : nodes.get? ij.1 with
  | none => rw [h1] at hmem; cases h2 : nodes.get? ij.2 <;> rw [h2] at hmem <;> cases hmem
  | some n1 =>
    cases h2 : nodes.get? ij.2 with
    | none => rw [h1, h2] at hmem; cases hmem
    | some n2 =>
      rw [h1, h2] at hmem
      obtain ⟨g, hg, hge⟩ := Option.map_eq_some'.mp hmem
      refine ⟨n1, n2, ?_, ?_, ?_, ?_, ?_⟩
      · rw [← hge]; exact h1
      · rw [← hge]; exact h2
      · rw [← hge]
        exact List.mem_of_find?_eq_some hg
      · rw [← hge]
        have := List.find?_some hg
        simpa using this
      · rw [← hge]

/-- Witness for edges_share_guide_straight_weight: the concrete start-to-
intersection edge of the counterexample graph. -/
theorem edges_share_guide_straight_weight_witness :
    ∃ n1 n2,
      [DNode.mk ⟨0,0⟩ [0], ⟨⟨1,3⟩, [1]⟩, ⟨⟨1,1⟩, [0,1]⟩, ⟨⟨1,1⟩, [0,1]⟩].get? 0 = some n1
      ∧ [DNode.mk ⟨0,0⟩ [0], ⟨⟨1,3⟩, [1]⟩, ⟨⟨1,1⟩, [0,1]⟩, ⟨⟨1,1⟩, [0,1]⟩].get? 2 = some n2
      ∧ 0 ∈ n1.guideIds ∧ 0 ∈ n2.guideIds ∧ (2 : ℚ) = taxi n1.point n2.point :=
  edges_share_guide_straight_weight taxi
    [⟨⟨0,0⟩, [0]⟩, ⟨⟨1,3⟩, [1]⟩, ⟨⟨1,1⟩, [0,1]⟩, ⟨⟨1,1⟩, [0,1]⟩] ⟨0,2,2,0⟩
    (by rw [cEdges_eval]; simp)

/-- Helper: one relaxation step can only give a finite distance to a node
reachable from the start, provided every already-finite node is reachable. -/
theorem relaxStep_reach (edges : List GEdge) (current : ℕ) (unvisited : List ℕ)
    (st : (ℕ → Option ℚ) × (ℕ → Option (ℕ × GEdge))) (e : GEdge) (he : e ∈ edges)
    (P : ∀ i, st.1 i ≠ none → Relation.ReflTransGen (EdgeRel edges) 0 i) :
    ∀ i, (relaxStep current unvisited st e).1 i ≠ none →
      Relation.ReflTransGen (EdgeRel edges) 0 i := by
  intro i hi
  unfold relaxStep at hi
  split_ifs at hi with h1 h2 h3 h4
  all_goals try exact P i hi
  · dsimp only at hi
    by_cases hit : i = e.toId
    · rw [hit, if_pos rfl] at hi
      have hcur : st.1 current ≠ none := by
        intro hc
        rw [hc] at hi
        exact hi rfl
      exact (P current hcur).tail ⟨e, he, Or.inl ⟨h1.1, hit.symm⟩⟩
    · rw [if_neg hit] at hi
      exact P i hi
  · dsimp only at hi
    by_cases hit : i = e.fromId
    · rw [hit, if_pos rfl] at hi
      have hcur : st.1 current ≠ none := by
        intro hc
        rw [hc] at hi
        exact hi rfl
      exact (P current hcur).tail ⟨e, he, Or.inr ⟨h3.1, hit.symm⟩⟩
    · rw [if_neg hit] at hi
      exact P i hi

/-- Helper: folding relaxation over any sublist of the edges preserves the
reachability invariant on finite distances. -/
theorem relaxFold_reach (edges : List GEdge) (current : ℕ) (unvisited : List ℕ) :
    ∀ (es : List GEdge), (∀ e ∈ es, e ∈ edges) →
    ∀ st, (∀ i, st.1 i ≠ none → Relation.ReflTransGen (EdgeRel edges) 0 i) →
    ∀ i, (es.foldl (relaxStep current unvisited) st).1 i ≠ none →
      Relation.ReflTransGen (EdgeRel edges) 0 i := by
  intro es
  induction es with
  | nil => intro _ st P i hi; exact P i hi
  | cons e rest ih =>
    intro hsub st P i hi
    exact ih (fun x hx => hsub x (List.mem_cons_of_mem e hx))
      (relaxStep current unvisited st e)
      (relaxStep_reach edges current unvisited st e (hsub e (List.mem_cons_self e rest)) P)
      i hi

/-- Helper: the whole Dijkstra loop preserves the reachability invariant. -/
theorem dijkstraLoop_reach (edges : List GEdge) (endId : ℕ) :
    ∀ (fuel : ℕ) (unvisited : List ℕ) (stDist : ℕ → Option ℚ)
      (stPrev : ℕ → Option (ℕ × GEdge)),
    (∀ i, stDist i ≠ none → Relation.ReflTransGen (EdgeRel edges) 0 i) →
    ∀ i, (dijkstraLoop edges endId fuel unvisited stDist stPrev).1 i ≠ none →
      Relation.ReflTransGen (EdgeRel edges) 0 i := by
  intro fuel
  induction fuel with
  | zero => intro _ _ _ P i hi; exact P i hi
  | succ fuel ih =>
    intro unvisited stDist stPrev P i hi
    rw [dijkstraLoop] at hi
    split at hi
    · exact P i hi
    · split at hi
      · exact P i hi
      · split at hi
        · exact P i hi
        · exact ih _ _ _
            (relaxFold_reach edges _ _ edges (fun _ hx => hx) (stDist, stPrev) P) i hi

/-- Helper: when the end node (index 1) is unreachable from the start node
(index 0) along the built edges, findShortestGuidePath returns none. -/
theorem findShortestGuidePath_none_of_unreachable (d : Pt → Pt → ℚ)
    (guides : List (List Pt)) (startInfo endInfo : SnapInfo)
    (h : ¬ Relation.ReflTransGen
        (EdgeRel (buildEdges d (buildNodes d guides startInfo endInfo))) 0 1) :
    findShortestGuidePath d guides startInfo endInfo = none := by
  unfold findShortestGuidePath
  by_cases hg : guides.isEmpty
  · rw [if_pos hg]
  · rw [if_neg hg]
    have hinit : ∀ i, (fun i => if i = 0 then some (0 : ℚ) else none) i ≠ none →
        Relation.ReflTransGen
          (EdgeRel (buildEdges d (buildNodes d guides startInfo endInfo))) 0 i := by
      intro i hi
      by_cases h0 : i = 0
      · subst h0; exact Relation.ReflTransGen.refl
      · simp only [if_neg h0] at hi
        exact absurd rfl hi
    have hnone : (runDijkstra (buildEdges d (buildNodes d guides startInfo endInfo))
        (buildNodes d guides startInfo endInfo).length).1 1 = none := by
      by_contra hne
      exact h (dijkstraLoop_reach _ 1 _ _ _ _ hinit 1 hne)
    dsimp only
    rw [hnone]

/-- Claim C6: an unreachable end node makes the router return null rather
than raising, and the caller keeps the raw freehand geometry on null while a
non-empty routed path replaces it. -/
theorem router_null_fallback (d : Pt → Pt → ℚ) (guides : List (List Pt))
    (startInfo endInfo : SnapInfo) (raw p : List Pt) :
    (¬ Relation.ReflTransGen
        (EdgeRel (buildEdges d (buildNodes d guides startInfo endInfo))) 0 1 →
      findShortestGuidePath d guides startInfo endInfo = none)
    ∧ (startInfo.guide ≠ endInfo.guide →
        (findShortestGuidePath d guides startInfo endInfo = none →
          pmCreateLineGeometry d guides [startInfo, endInfo] raw = raw)
        ∧ (findShortestGuidePath d guides startInfo endInfo = some p → p ≠ [] →
          pmCreateLineGeometry d guides [startInfo, endInfo] raw = p)) := by
  refine ⟨findShortestGuidePath_none_of_unreachable d guides startInfo endInfo, ?_⟩
  intro hne
  constructor
  · intro hnull
    unfold pmCreateLineGeometry
    dsimp only
    rw [if_neg hne, hnull]
  · intro hsome hp
    unfold pmCreateLineGeometry
    dsimp only
    rw [if_neg hne, hsome]
    simp [List.isEmpty_iff, hp]

/-- Witness for router_null_fallback: two short guides far apart produce an
edgeless graph; the router returns none and the raw geometry is kept. -/
theorem router_null_fallback_witness :
    findShortestGuidePath taxi [[⟨0,0⟩, ⟨1,0⟩], [⟨10,10⟩, ⟨11,10⟩]]
        ⟨⟨0,0⟩, 0⟩ ⟨⟨11,10⟩, 1⟩ = none
    ∧ pmCreateLineGeometry taxi [[⟨0,0⟩, ⟨1,0⟩], [⟨10,10⟩, ⟨11,10⟩]]
        [⟨⟨0,0⟩, 0⟩, ⟨⟨11,10⟩, 1⟩] [⟨0,0⟩, ⟨11,10⟩] = [⟨0,0⟩, ⟨11,10⟩] := by
  have hedges : buildEdges taxi (buildNodes taxi [[⟨0,0⟩, ⟨1,0⟩], [⟨10,10⟩, ⟨11,10⟩]]
      ⟨⟨0,0⟩, 0⟩ ⟨⟨11,10⟩, 1⟩) = [] := by
    norm_num [buildEdges, buildNodes, intersectionNodes, indexPairsBelow,
      lineIntersectPts, segPairs, segIntersectPt, closeEndpointNodes, endpointList,
      sharedGuide, lerp, taxi, qabs, List.range_succ, List.filterMap_cons, List.find?]
  have hunreach : ¬ Relation.ReflTransGen
      (EdgeRel (buildEdges taxi (buildNodes taxi [[⟨0,0⟩, ⟨1,0⟩], [⟨10,10⟩, ⟨11,10⟩]]
        ⟨⟨0,0⟩, 0⟩ ⟨⟨11,10⟩, 1⟩))) 0 1 := by
    rw [hedges]
    intro hr
    rcases Relation.ReflTransGen.cases_head hr with h01 | ⟨c, hc, _⟩
    · exact absurd h01 (by decide)
    · rcases hc with ⟨e, hmem, _⟩
      exact absurd hmem (List.not_mem_nil e)
  have h := router_null_fallback taxi [[⟨0,0⟩, ⟨1,0⟩], [⟨10,10⟩, ⟨11,10⟩]]
    ⟨⟨0,0⟩, 0⟩ ⟨⟨11,10⟩, 1⟩ [⟨0,0⟩, ⟨11,10⟩] []
  have hnull := h.1 hunreach
  exact ⟨hnull, (h.2 (by decide)).1 hnull⟩

/-- Helper: interpolation at 0 is the first endpoint. -/
theorem lerp_zero (a b : Pt) : lerp 0 a b = a := by
  simp [lerp]

/-- Helper: interpolation at 1 is the second endpoint. -/
theorem lerp_one (a b : Pt) : lerp 1 a b = b := by
  simp [lerp]

/-- Helper: interpolating between two interpolants of the same segment stays
an interpolant of that segment. -/
theorem lerp_lerp (w u v : ℚ) (a b : Pt) :
    lerp w (lerp u a b) (lerp v a b) = lerp (u + w * (v - u)) a b := by
  simp only [lerp, Pt.mk.injEq]
  constructor <;> ring

/-- Helper: the trace of a polyline only grows when a vertex is prepended. -/
theorem onTrace_cons (p a : Pt) (b : Pt) (rest : List Pt)
    (h : onTrace p (b :: rest)) : onTrace p (a :: b :: rest) :=
  Or.inr h

/-- Helper: an interpolant of a consecutive pair of L lies on L's trace. -/
theorem adjPair_onTrace (a b : Pt) (u : ℚ) (hu0 : 0 ≤ u) (hu1 : u ≤ 1) :
    ∀ (L : List Pt), AdjPair L a b → onTrace (lerp u a b) L := by
  intro L
  induction L with
  | nil => intro h; exact absurd h (by simp [AdjPair])
  | cons x L' ih =>
    intro h
    cases L' with
    | nil => exact absurd h (by simp [AdjPair])
    | cons y rest =>
      rcases h with ⟨hx, hy⟩ | h'
      · subst hx; subst hy
        exact Or.inl ⟨u, hu0, hu1, rfl⟩
      · exact Or.inr (ih h')

/-- Helper: a point on a sub-chord of L lies on L's trace. -/
theorem subChord_onTrace (L : List Pt) (x y : Pt) (h : SubChord L x y)
    (w : ℚ) (hw0 : 0 ≤ w) (hw1 : w ≤ 1) : onTrace (lerp w x y) L := by
  obtain ⟨a, b, u, v, hab, hu0, hu1, hv0, hv1, hx, hy⟩ := h
  subst hx; subst hy
  rw [lerp_lerp]
  refine adjPair_onTrace a b (u + w * (v - u)) ?_ ?_ L hab
  · nlinarith
  · nlinarith

/-- Helper: trace membership in a chained piece transfers to L. -/
theorem chainIn_onTrace (L : List Pt) :
    ∀ (rest : List Pt) (x y : Pt), ChainIn L (x :: y :: rest) →
      ∀ p, onTrace p (x :: y :: rest) → onTrace p L := by
  intro rest
  induction rest with
  | nil =>
    intro x y hc p hp
    rcases hp with ⟨w, hw0, hw1, rfl⟩ | hp'
    · exact subChord_onTrace L x y hc.1 w hw0 hw1
    · have hpy : p = y := hp'
      subst hpy
      have := subChord_onTrace L x p hc.1 1 (by norm_num) (by norm_num)
      rwa [lerp_one] at this
  | cons z rest' ih =>
    intro x y hc p hp
    rcases hp with ⟨w, hw0, hw1, rfl⟩ | hp'
    · exact subChord_onTrace L x y hc.1 w hw0 hw1
    · exact ih y z hc.2 p hp'

/-- Helper: intersection parameters returned by segIntersectParam are in
the unit interval. -/
theorem segIntersectParam_bounds (p1 p2 p3 p4 : Pt) (u : ℚ)
    (h : segIntersectParam p1 p2 p3 p4 = some u) : 0 ≤ u ∧ u ≤ 1 := by
  unfold segIntersectParam at h
  dsimp only at h
  split_ifs at h with h1 h2
  all_goals cases h
  all_goals exact ⟨h2.1, h2.2.1⟩

/-- Helper: membership after rational insertion. -/
theorem mem_insertRat (x y : ℚ) : ∀ (l : List ℚ), x ∈ insertRat y l → x = y ∨ x ∈ l := by
  intro l
  induction l with
  | nil =>
    intro h
    rw [insertRat] at h
    exact Or.inl (List.mem_singleton.mp h)
  | cons z zs ih =>
    intro h
    rw [insertRat] at h
    split_ifs at h with hle
    · rcases List.mem_cons.mp h with h | h
      · exact Or.inl h
      · exact Or.inr h
    · rcases List.mem_cons.mp h with h | h
      · exact Or.inr (by simp [h])
      · rcases ih h with h' | h'
        · exact Or.inl h'
        · exact Or.inr (List.mem_cons_of_mem z h')

/-- Helper: sorting does not add elements. -/
theorem mem_sortRats (x : ℚ) : ∀ (l : List ℚ), x ∈ sortRats l → x ∈ l := by
  intro l
  induction l with
  | nil => intro h; rw [sortRats] at h; exact h
  | cons z zs ih =>
    intro h
    rw [sortRats] at h
    rcases mem_insertRat x z (sortRats zs) h with h' | h'
    · simp [h']
    · exact List.mem_cons_of_mem z (ih h')

/-- Helper: every cut parameter of a segment is in the unit interval. -/
theorem segCutParams_bounds (border : List (Pt × Pt)) (a b : Pt) (u : ℚ)
    (h : u ∈ segCutParams border a b) : 0 ≤ u ∧ u ≤ 1 := by
  unfold segCutParams at h
  obtain ⟨e, _, he⟩ := List.mem_filterMap.mp (mem_sortRats u _ h)
  exact segIntersectParam_bounds a b e.1 e.2 u he

/-- Helper: the taxicab metric is nonnegative. -/
theorem taxi_nonneg (p q : Pt) : 0 ≤ taxi p q := by
  unfold taxi qabs
  split_ifs <;> linarith

/-- Helper: appending one more interpolant of the pair (a,b) to a chain whose
last point interpolates (a,b) keeps it a chain. -/
theorem chainIn_append (L : List Pt) (a b : Pt) (hab : AdjPair L a b) (v : ℚ)
    (hv0 : 0 ≤ v) (hv1 : v ≤ 1) :
    ∀ (c : List Pt) (w : ℚ), 0 ≤ w → w ≤ 1 → ChainIn L c →
      c.getLast? = some (lerp w a b) → ChainIn L (c ++ [lerp v a b]) := by
  intro c
  induction c with
  | nil => intro w _ _ _ hlast; cases hlast
  | cons x cs ih =>
    intro w hw0 hw1 hc hlast
    cases cs with
    | nil =>
      have hx : x = lerp w a b := by simpa using hlast
      exact ⟨⟨a, b, w, v, hab, hw0, hw1, hv0, hv1, hx, rfl⟩, trivial⟩
    | cons y cs' =>
      have hlast' : (y :: cs').getLast? = some (lerp w a b) := by
        simpa [List.getLast?_cons_cons] using hlast
      exact ⟨hc.1, ih w hw0 hw1 hc.2 hlast'⟩

/-- Helper: splitting one segment of L produces pieces that chain in L, and
leaves an open piece of length at least 2 chaining in L and ending at b. -/
theorem splitSegGo_inv (L : List Pt) (a b : Pt) (hab : AdjPair L a b) :
    ∀ (us : List ℚ), (∀ u ∈ us, 0 ≤ u ∧ u ≤ 1) →
    ∀ (cur : List Pt) (w : ℚ), 0 ≤ w → w ≤ 1 → cur ≠ [] → ChainIn L cur →
      cur.getLast? = some (lerp w a b) →
      (∀ pc ∈ (splitSegGo a b us cur).1, ChainIn L pc ∧ 2 ≤ pc.length)
      ∧ 2 ≤ (splitSegGo a b us cur).2.length
      ∧ ChainIn L (splitSegGo a b us cur).2
      ∧ (splitSegGo a b us cur).2.getLast? = some b := by
  intro us
  induction us with
  | nil =>
    intro _ cur w hw0 hw1 hne hc hlast
    refine ⟨?_, ?_, ?_, ?_⟩
    · intro pc hpc
      rw [splitSegGo] at hpc
      exact absurd hpc (List.not_mem_nil pc)
    · rw [splitSegGo]
      have hpos := List.length_pos.mpr hne
      simp only [List.length_append, List.length_singleton]
      omega
    · rw [splitSegGo]
      have h := chainIn_append L a b hab 1 zero_le_one le_rfl cur w hw0 hw1 hc hlast
      rwa [lerp_one] at h
    · rw [splitSegGo]
      exact List.getLast?_concat cur
  | cons u rest ih =>
    intro hus cur w hw0 hw1 hne hc hlast
    have hu := hus u (List.mem_cons_self u rest)
    have hrest : ∀ x ∈ rest, 0 ≤ x ∧ x ≤ 1 :=
      fun x hx => hus x (List.mem_cons_of_mem u hx)
    have hrec := ih hrest [lerp u a b] u hu.1 hu.2 (by simp) trivial rfl
    rw [splitSegGo]
    dsimp only
    refine ⟨?_, hrec.2.1, hrec.2.2.1, hrec.2.2.2⟩
    intro pc hpc
    rcases List.mem_cons.mp hpc with hpc' | hpc'
    · subst hpc'
      constructor
      · exact chainIn_append L a b hab u hu.1 hu.2 cur w hw0 hw1 hc hlast
      · have hpos := List.length_pos.mpr hne
        simp only [List.length_append, List.length_singleton]
        omega
    · exact hrec.1 pc hpc'

/-- Helper: a consecutive pair of a suffix of L is a consecutive pair of L. -/
theorem suffix_adjPair : ∀ (L rest : List Pt) (a b : Pt),
    (a :: b :: rest).IsSuffix L → AdjPair L a b := by
  intro L
  induction L with
  | nil =>
    intro rest a b h
    cases List.suffix_nil.mp h
  | cons x L' ih =>
    intro rest a b h
    rcases List.suffix_cons_iff.mp h with heq | h'
    · injection heq with h1 h2
      subst h1
      rw [← h2]
      exact Or.inl ⟨rfl, rfl⟩
    · cases L' with
      | nil => cases List.suffix_nil.mp h'
      | cons y t => exact Or.inr (ih rest a b h')

/-- Helper: every piece produced by the split walk chains in L and has at
least two points. -/
theorem splitWalk_inv (border : List (Pt × Pt)) (L : List Pt) :
    ∀ (rem : List Pt), rem.IsSuffix L →
    ∀ (cur : List Pt), cur ≠ [] → ChainIn L cur → cur.getLast? = rem.head? →
      (2 ≤ cur.length ∨ 2 ≤ rem.length) →
      ∀ pc ∈ splitWalk border rem cur, ChainIn L pc ∧ 2 ≤ pc.length := by
  intro rem
  induction rem with
  | nil =>
    intro _ cur _ hc _ hlen pc hpc
    have hpc' : pc = cur := List.mem_singleton.mp hpc
    subst hpc'
    rcases hlen with h2 | h2
    · exact ⟨hc, h2⟩
    · simp at h2
  | cons a rem' ih =>
    intro hsuf cur hne hc hlast hlen
    cases rem' with
    | nil =>
      intro pc hpc
      have hpc' : pc = cur := List.mem_singleton.mp hpc
      subst hpc'
      rcases hlen with h2 | h2
      · exact ⟨hc, h2⟩
      · simp at h2
    | cons b rest =>
      intro pc hpc
      have hab : AdjPair L a b := suffix_adjPair L rest a b hsuf
      have hg := splitSegGo_inv L a b hab (segCutParams border a b)
        (fun u hu => segCutParams_bounds border a b u hu) cur 0 le_rfl zero_le_one hne hc
        (by rw [hlast, lerp_zero]; exact rfl)
      rw [splitWalk] at hpc
      rcases List.mem_append.mp hpc with hL | hR
      · exact hg.1 pc hL
      · have hsuf' : (b :: rest).IsSuffix L :=
          (List.suffix_cons a (b :: rest)).trans hsuf
        refine ih hsuf' (splitSegGo a b (segCutParams border a b) cur).2 ?_
          hg.2.2.1 (by rw [hg.2.2.2]; exact rfl) (Or.inl hg.2.1) pc hR
        have := hg.2.1
        intro hnil
        rw [hnil] at this
        simp at this

/-- Helper: every piece of splitLine chains in L and has at least two
points. -/
theorem splitLine_pieces (border : List (Pt × Pt)) (L : List Pt) :
    ∀ pc ∈ splitLine border L, ChainIn L pc ∧ 2 ≤ pc.length := by
  intro pc hpc
  rcases L with _ | ⟨a, L'⟩
  · have he : splitLine border [] = [] := rfl
    rw [he] at hpc
    exact absurd hpc (List.not_mem_nil pc)
  rcases L' with _ | ⟨b, rest⟩
  · have he : splitLine border [a] = [] := rfl
    rw [he] at hpc
    exact absurd hpc (List.not_mem_nil pc)
  rw [splitLine] at hpc
  split at hpc
  · exact absurd hpc (List.not_mem_nil pc)
  · exact splitWalk_inv border (a :: b :: rest) (a :: b :: rest)
      (List.suffix_refl _) [a] (by simp) trivial rfl
      (Or.inr (by simp)) pc hpc

/-- Helper: the point at any nonnegative travel along a nonempty polyline
lies on its trace (the metric must be nonnegative). -/
theorem alongPts_onTrace (d : Pt → Pt → ℚ) (hd : ∀ p q, 0 ≤ d p q) :
    ∀ (L : List Pt), L ≠ [] → ∀ t : ℚ, 0 ≤ t → onTrace (alongPts d t L) L := by
  intro L
  induction L with
  | nil => intro h; exact absurd rfl h
  | cons a L' ih =>
    intro _ t ht
    cases L' with
    | nil => exact rfl
    | cons b rest =>
      rw [alongPts]
      by_cases h1 : t ≤ d a b
      · rw [if_pos h1]
        by_cases h2 : d a b = 0
        · rw [if_pos h2]
          exact Or.inl ⟨0, le_rfl, zero_le_one, (lerp_zero a b).symm⟩
        · rw [if_neg h2]
          refine Or.inl ⟨t / d a b, ?_, ?_, rfl⟩
          · exact div_nonneg ht (hd a b)
          · have hpos : 0 < d a b := lt_of_le_of_ne (hd a b) (Ne.symm h2)
            exact (div_le_one hpos).mpr h1
      · rw [if_neg h1]
        refine onTrace_cons _ a b rest (ih (by simp) (t - d a b) ?_)
        have := not_le.mp h1
        linarith

/-- Helper: the midpoint of a nonempty piece lies on its trace. -/
theorem midPt_onTrace (d : Pt → Pt → ℚ) (hd : ∀ p q, 0 ≤ d p q)
    (L : List Pt) (hL : L ≠ []) : onTrace (midPt d L) L :=
  alongPts_onTrace d hd L hL _ (le_max_left 0 _)

/-- Claim C5 (amended): clipLineToPolygon keeps exactly the pieces whose
midpoint passes the boundary-inclusive point-in-polygon test (not the strict
one); a line lying wholly outside (every trace point failing the test) gives
an empty result; and with no split pieces, a passing midpoint keeps the whole
line. -/
theorem clip_midpoint_semantics (d : Pt → Pt → ℚ) (hd : ∀ p q, 0 ≤ d p q)
    (L ring : List Pt) (hL : L ≠ []) :
    (∀ g ∈ clipLineToPolygon d L ring, inRingB (midPt d g) ring false = true)
    ∧ ((∀ p, onTrace p L → inRingB p ring false = false) →
        clipLineToPolygon d L ring = [])
    ∧ (splitLine (ringEdges ring) L = [] → inRingB (midPt d L) ring false = true →
        clipLineToPolygon d L ring = [L]) := by
  refine ⟨?_, ?_, ?_⟩
  · intro g hg
    unfold clipLineToPolygon at hg
    dsimp only at hg
    by_cases hS : (splitLine (ringEdges ring) L).isEmpty = true
    · rw [if_pos hS] at hg
      by_cases hcol : collectPiece d ring L = true
      · rw [if_pos hcol] at hg
        have hgl : g = L := List.mem_singleton.mp hg
        subst hgl
        exact hcol
      · rw [if_neg hcol] at hg
        exact absurd hg (List.not_mem_nil g)
    · rw [if_neg hS] at hg
      exact (List.mem_filter.mp hg).2
  · intro hout
    unfold clipLineToPolygon
    dsimp only
    by_cases hS : (splitLine (ringEdges ring) L).isEmpty = true
    · rw [if_pos hS]
      have hmid : inRingB (midPt d L) ring false = false :=
        hout _ (midPt_onTrace d hd L hL)
      have hcol : ¬ (collectPiece d ring L = true) := by
        unfold collectPiece
        rw [hmid]
        simp
      rw [if_neg hcol]
    · rw [if_neg hS]
      refine List.filter_eq_nil_iff.mpr ?_
      intro pc hpc
      obtain ⟨hchain, hlen⟩ := splitLine_pieces (ringEdges ring) L pc hpc
      have hpcne : pc ≠ [] := by
        intro h
        rw [h] at hlen
        simp at hlen
      have hmid : onTrace (midPt d pc) pc := midPt_onTrace d hd pc hpcne
      rcases pc with _ | ⟨x, _ | ⟨y, prest⟩⟩
      · simp at hlen
      · simp at hlen
      · have honL : onTrace (midPt d (x :: y :: prest)) L :=
          chainIn_onTrace L prest x y hchain _ hmid
        have hfalse := hout _ honL
        unfold collectPiece
        rw [hfalse]
        simp
  · intro hsplit hmid
    unfold clipLineToPolygon
    dsimp only
    rw [hsplit]
    have hcol : collectPiece d ring L = true := hmid
    simp [hcol]

/-- Counterexample to claim C5 as stated: a line running along the square's
left edge has no computed border crossings, its midpoint (0,1) lies on the
boundary — not strictly inside — and yet clipLineToPolygon returns the line,
because the code's midpoint test counts boundary points as inside. -/
theorem clip_strict_counterexample :
    clipLineToPolygon taxi [⟨0,1/2⟩, ⟨0,3/2⟩] sqRing = [[⟨0,1/2⟩, ⟨0,3/2⟩]]
    ∧ inRingB (midPt taxi [⟨0,1/2⟩, ⟨0,3/2⟩]) sqRing true = false := by
  constructor
  · norm_num [clipLineToPolygon, splitLine, splitWalk, splitSegGo, segCutParams,
      segIntersectParam, sortRats, insertRat, segPairs, ringEdges, sqRing,
      collectPiece, midPt, alongPts, lineLen, taxi, qabs, lerp, inRingB, ringVerts,
      ringPairs, inRingLoop, max_def, List.filterMap_cons]
  · norm_num [inRingB, midPt, alongPts, lineLen, taxi, qabs, lerp, ringVerts,
      ringPairs, inRingLoop, sqRing, max_def]

/-- Witness for clip_midpoint_semantics: a segment entirely to the right of
the square study area clips to the empty list. -/
theorem clip_midpoint_semantics_witness :
    clipLineToPolygon taxi [⟨5,0⟩, ⟨5,1⟩] sqRing = [] := by
  refine (clip_midpoint_semantics taxi taxi_nonneg [⟨5,0⟩, ⟨5,1⟩] sqRing
    (by simp)).2.1 ?_
  intro p hp
  rcases hp with ⟨u, hu0, hu1, rfl⟩ | hp'
  · norm_num [lerp, inRingB, ringVerts, ringPairs, inRingLoop, sqRing]
  · have hpe : p = ⟨5,1⟩ := hp'
    subst hpe
    norm_num [inRingB, ringVerts, ringPairs, inRingLoop, sqRing]

/-- Helper: counting attempts through a cons of an attempt event. -/
theorem countAttemptsAt_cons_attempt (e a r : ℕ) (tr : List FetchEv) :
    countAttemptsAt e (.attempt a r :: tr)
      = countAttemptsAt e tr + (if a = e then 1 else 0) := by
  unfold countAttemptsAt
  rw [List.filter_cons]
  by_cases h : a = e
  · simp [h]
  · simp [h]

/-- Helper: delays do not count as attempts. -/
theorem countAttemptsAt_cons_delay (e m : ℕ) (tr : List FetchEv) :
    countAttemptsAt e (.delayMs m :: tr) = countAttemptsAt e tr := by
  unfold countAttemptsAt
  rw [List.filter_cons]
  simp

/-- Helper: attempt counts add over concatenated traces. -/
theorem countAttemptsAt_append (e : ℕ) (t1 t2 : List FetchEv) :
    countAttemptsAt e (t1 ++ t2) = countAttemptsAt e t1 + countAttemptsAt e t2 := by
  unfold countAttemptsAt
  rw [List.filter_append, List.length_append]

/-- Helper: the retry loop of one endpoint makes at most `left` attempts at
that endpoint and none at any other. -/
theorem tryEndpointGo_count (responses : ℕ → ℕ → FetchOutcome)
    (eIdx maxRetries e : ℕ) :
    ∀ (left : ℕ) (lastErr : Option String),
      countAttemptsAt e (tryEndpointGo responses eIdx maxRetries left lastErr).2.2
        ≤ if eIdx = e then left else 0 := by
  intro left
  induction left with
  | zero =>
    intro lastErr
    rw [tryEndpointGo]
    simp [countAttemptsAt]
  | succ left ih =>
    intro lastErr
    rw [tryEndpointGo]
    dsimp only
    cases hres : responses eIdx (maxRetries - (left + 1)) with
    | success els =>
      dsimp only
      rw [countAttemptsAt_cons_attempt]
      have h0 : countAttemptsAt e ([] : List FetchEv) = 0 := by
        simp [countAttemptsAt]
      rw [h0]
      split_ifs <;> omega
    | httpStatus c =>
      dsimp only
      by_cases h5 : c = 504 ∨ c = 502 ∨ c = 503
      · rw [if_pos h5]
        by_cases hlft : 0 < left
        · rw [if_pos hlft]
          dsimp only
          rw [countAttemptsAt_cons_attempt, countAttemptsAt_cons_delay]
          have hih := ih (some (errMsgOf (.httpStatus c)))
          split_ifs at hih ⊢ <;> omega
        · rw [if_neg hlft]
          dsimp only
          rw [countAttemptsAt_cons_attempt]
          have h0 : countAttemptsAt e ([] : List FetchEv) = 0 := by
            simp [countAttemptsAt]
          rw [h0]
          split_ifs <;> omega
      · rw [if_neg h5]
        dsimp only
        rw [countAttemptsAt_cons_attempt]
        have hih := ih (some (errMsgOf (.httpStatus c)))
        split_ifs at hih ⊢ <;> omega
    | timeout =>
      dsimp only
      by_cases hlft : 0 < left
      · rw [if_pos hlft]
        dsimp only
        rw [countAttemptsAt_cons_attempt, countAttemptsAt_cons_delay]
        have hih := ih (some (errMsgOf .timeout))
        split_ifs at hih ⊢ <;> omega
      · rw [if_neg hlft]
        dsimp only
        rw [countAttemptsAt_cons_attempt]
        have h0 : countAttemptsAt e ([] : List FetchEv) = 0 := by
          simp [countAttemptsAt]
        rw [h0]
        split_ifs <;> omega
    | networkError m =>
      dsimp only
      rw [countAttemptsAt_cons_attempt]
      have hih := ih (some m)
      split_ifs at hih ⊢ <;> omega

/-- Helper: a body returned by the retry loop came from some successful
response of that endpoint. -/
theorem tryEndpointGo_success (responses : ℕ → ℕ → FetchOutcome)
    (eIdx maxRetries : ℕ) :
    ∀ (left : ℕ) (lastErr : Option String) (els : List OsmElement),
      (tryEndpointGo responses eIdx maxRetries left lastErr).1 = some els →
      ∃ r, responses eIdx r = .success els := by
  intro left
  induction left with
  | zero =>
    intro lastErr els h
    rw [tryEndpointGo] at h
    cases h
  | succ left ih =>
    intro lastErr els h
    rw [tryEndpointGo] at h
    dsimp only at h
    cases hres : responses eIdx (maxRetries - (left + 1)) with
    | success els' =>
      rw [hres] at h
      dsimp only at h
      cases h
      exact ⟨maxRetries - (left + 1), hres⟩
    | httpStatus c =>
      rw [hres] at h
      dsimp only at h
      split_ifs at h with h5 hlft
      all_goals exact ih _ els h
    | timeout =>
      rw [hres] at h
      dsimp only at h
      split_ifs at h with hlft
      all_goals exact ih _ els h
    | networkError m =>
      rw [hres] at h
      dsimp only at h
      exact ih _ els h

/-- Helper: when an endpoint never answers successfully, its retry loop
produces no body. -/
theorem tryEndpointGo_none (responses : ℕ → ℕ → FetchOutcome)
    (eIdx maxRetries : ℕ) (hfail : ∀ r, isSuccessOutcome (responses eIdx r) = false) :
    ∀ (left : ℕ) (lastErr : Option String),
      (tryEndpointGo responses eIdx maxRetries left lastErr).1 = none := by
  intro left
  induction left with
  | zero =>
    intro lastErr
    rw [tryEndpointGo]
  | succ left ih =>
    intro lastErr
    rw [tryEndpointGo]
    dsimp only
    cases hres : responses eIdx (maxRetries - (left + 1)) with
    | success els =>
      have hcontra := hfail (maxRetries - (left + 1))
      rw [hres] at hcontra
      exact Bool.noConfusion hcontra
    | httpStatus c =>
      dsimp only
      split_ifs with h5 hlft
      · exact ih _
      · rfl
      · exact ih _
    | timeout =>
      dsimp only
      split_ifs with hlft
      · exact ih _
      · rfl
    | networkError m =>
      dsimp only
      exact ih _

/-- Helper: an ok fetch result carries the parse of some endpoint's
successful body. -/
theorem fetchLoop_ok (responses : ℕ → ℕ → FetchOutcome) :
    ∀ (eps : List ℕ) (lastErr : Option String) (v : List RoadFeature),
      (fetchLoop responses eps lastErr).1 = .ok v →
      ∃ e r els, responses e r = .success els ∧ v = parseElements els := by
  intro eps
  induction eps with
  | nil =>
    intro lastErr v h
    rw [fetchLoop] at h
    cases h
  | cons eIdx rest ih =>
    intro lastErr v h
    rw [fetchLoop] at h
    dsimp only at h
    cases hres : (tryEndpointGo responses eIdx 2 2 lastErr).1 with
    | some els =>
      rw [hres] at h
      dsimp only at h
      obtain ⟨r, hr⟩ := tryEndpointGo_success responses eIdx 2 2 lastErr els hres
      refine ⟨eIdx, r, els, hr, ?_⟩
      cases h
      rfl
    | none =>
      rw [hres] at h
      dsimp only at h
      exact ih _ v h

/-- Helper: exhausting every endpoint yields the descriptive error. -/
theorem fetchLoop_error (responses : ℕ → ℕ → FetchOutcome)
    (hfail : ∀ e r, isSuccessOutcome (responses e r) = false) :
    ∀ (eps : List ℕ) (lastErr : Option String),
      ∃ emsg, (fetchLoop responses eps lastErr).1
        = .error ("Unable to load street data: " ++ emsg
            ++ ". Please try again or check your internet connection.") := by
  intro eps
  induction eps with
  | nil =>
    intro lastErr
    exact ⟨lastErr.getD "Overpass request failed", rfl⟩
  | cons eIdx rest ih =>
    intro lastErr
    rw [fetchLoop]
    dsimp only
    rw [tryEndpointGo_none responses eIdx 2 (fun r => hfail eIdx r) 2 lastErr]
    exact ih _

/-- Helper: an endpoint that is never tried gets no attempts. -/
theorem fetchLoop_count_zero (responses : ℕ → ℕ → FetchOutcome) (e : ℕ) :
    ∀ (eps : List ℕ) (lastErr : Option String), e ∉ eps →
      countAttemptsAt e (fetchLoop responses eps lastErr).2 = 0 := by
  intro eps
  induction eps with
  | nil =>
    intro lastErr _
    simp [fetchLoop, countAttemptsAt]
  | cons eIdx rest ih =>
    intro lastErr hnm
    have hne : eIdx ≠ e := fun h => hnm (by rw [h]; exact List.mem_cons_self e rest)
    have hseg := tryEndpointGo_count responses eIdx 2 e 2 lastErr
    rw [if_neg hne] at hseg
    rw [fetchLoop]
    dsimp only
    cases hres : (tryEndpointGo responses eIdx 2 2 lastErr).1 with
    | some els =>
      dsimp only
      omega
    | none =>
      dsimp only
      rw [countAttemptsAt_append]
      have hrest := ih ((tryEndpointGo responses eIdx 2 2 lastErr).2.1)
        (fun h => hnm (List.mem_cons_of_mem eIdx h))
      omega

/-- Helper: with each endpoint listed at most once, the loop attempts each
endpoint at most twice. -/
theorem fetchLoop_count (responses : ℕ → ℕ → FetchOutcome) (e : ℕ) :
    ∀ (eps : List ℕ) (lastErr : Option String), eps.count e ≤ 1 →
      countAttemptsAt e (fetchLoop responses eps lastErr).2 ≤ 2 := by
  intro eps
  induction eps with
  | nil =>
    intro lastErr _
    simp [fetchLoop, countAttemptsAt]
  | cons eIdx rest ih =>
    intro lastErr hcount
    have hseg := tryEndpointGo_count responses eIdx 2 e 2 lastErr
    rw [fetchLoop]
    dsimp only
    cases hres : (tryEndpointGo responses eIdx 2 2 lastErr).1 with
    | some els =>
      dsimp only
      split_ifs at hseg <;> omega
    | none =>
      dsimp only
      rw [countAttemptsAt_append]
      by_cases heq : eIdx = e
      · rw [if_pos heq] at hseg
        have hz : rest.count e = 0 := by
          rw [List.count_cons] at hcount
          subst heq
          simp at hcount
          omega
        have hrest := fetchLoop_count_zero responses e rest
          ((tryEndpointGo responses eIdx 2 2 lastErr).2.1)
          (List.count_eq_zero.mp hz)
        omega
      · rw [if_neg heq] at hseg
        have hrest := ih ((tryEndpointGo responses eIdx 2 2 lastErr).2.1)
          (by rw [List.count_cons] at hcount; omega)
        omega

/-- Claim C7: the fetcher attempts each of the fixed endpoints at most
twice, any ok result is the parse of some endpoint's first successful
response, exhausting every endpoint fails with the descriptive network
error, and in the fallback scenario (endpoints 0 and 1 time out, endpoint 2
succeeds) the third endpoint's parsed body is returned after the exact
attempt/delay trace, with no failure reported. -/
theorem fetch_retry_fallback (responses : ℕ → ℕ → FetchOutcome)
    (dBody : List OsmElement) :
    (∀ e, countAttemptsAt e (fetchOSMRoadsForBBox responses).2 ≤ 2)
    ∧ (∀ v, (fetchOSMRoadsForBBox responses).1 = .ok v →
        ∃ e r els, responses e r = .success els ∧ v = parseElements els)
    ∧ ((∀ e r, isSuccessOutcome (responses e r) = false) →
        ∃ emsg, (fetchOSMRoadsForBBox responses).1
          = .error ("Unable to load street data: " ++ emsg
              ++ ". Please try again or check your internet connection."))
    ∧ (fetchOSMRoadsForBBox (scenarioResponses dBody)
        = (.ok (parseElements dBody),
           [.attempt 0 0, .delayMs 1000, .attempt 0 1,
            .attempt 1 0, .delayMs 1000, .attempt 1 1, .attempt 2 0])) := by
  refine ⟨?_, ?_, ?_, ?_⟩
  · intro e
    exact fetchLoop_count responses e [0, 1, 2] none
      ((List.nodup_iff_count_le_one.mp (by decide)) e)
  · intro v h
    exact fetchLoop_ok responses [0, 1, 2] none v h
  · intro hfail
    exact fetchLoop_error responses hfail [0, 1, 2] none
  · rfl

/-- Witness for fetch_retry_fallback: all-timeout responses produce the
descriptive error, and the concrete fallback scenario returns endpoint 2's
parsed (empty) body with the expected trace. -/
theorem fetch_retry_fallback_witness :
    (∃ emsg, (fetchOSMRoadsForBBox (fun _ _ => .timeout)).1
      = .error ("Unable to load street data: " ++ emsg
          ++ ". Please try again or check your internet connection."))
    ∧ fetchOSMRoadsForBBox (scenarioResponses [])
        = (.ok (parseElements []),
           [.attempt 0 0, .delayMs 1000, .attempt 0 1,
            .attempt 1 0, .delayMs 1000, .attempt 1 1, .attempt 2 0]) :=
  ⟨(fetch_retry_fallback (fun _ _ => .timeout) []).2.2.1 (fun _ _ => rfl),
   (fetch_retry_fallback (fun _ _ => .timeout) []).2.2.2⟩

/-- Claim C8 is violated by the code (code bug): with a fetch for boundary A
in flight, finalizing boundary B drops B's fetch at the in-flight guard, and
when A's fetch later resolves its result is installed unconditionally — the
roads and guides then answer A's bbox while the active boundary is B, with no
bbox comparison at resolution time. -/
theorem stale_fetch_not_discarded :
    ((boundaryFinalized (boundaryFinalized
        ⟨[], none, false, none, none, none⟩ ringA) ringB).fetching = true
      ∧ (boundaryFinalized (boundaryFinalized
        ⟨[], none, false, none, none, none⟩ ringA) ringB).pendingBoundary = some ringA)
    ∧ ((fetchResolved (boundaryFinalized (boundaryFinalized
        ⟨[], none, false, none, none, none⟩ ringA) ringB)).boundary = ringB
      ∧ (fetchResolved (boundaryFinalized (boundaryFinalized
        ⟨[], none, false, none, none, none⟩ ringA) ringB)).guidesFor = some ringA
      ∧ (fetchResolved (boundaryFinalized (boundaryFinalized
        ⟨[], none, false, none, none, none⟩ ringA) ringB)).roadsFor
          = some (bboxOfRing ringA))
    ∧ ringA ≠ ringB ∧ bboxOfRing ringA ≠ bboxOfRing ringB := by
  refine ⟨⟨?_, ?_⟩, ⟨?_, ?_, ?_⟩, ?_, ?_⟩ <;>
    norm_num [boundaryFinalized, maybeFetchStep, fetchResolved, bboxOfRing,
      ringA, ringB, max_def, min_def, Pt.mk.injEq, Prod.ext_iff] <;>
    try simp

/-- Counterexample to claim C9 as stated: exporting a state whose boundary
is null and re-importing over a state that has a boundary leaves the
importer's boundary (an array) in place, so the exported state's null
boundary is not reproduced. -/
theorem roundtrip_boundary_counterexample :
    (onImportModel (some (onExportModel ⟨[], JVal.null⟩))
        ⟨[], .arr [.num 1]⟩).boundary = JVal.arr [.num 1]
    ∧ JVal.arr [.num 1] ≠ JVal.null := by
  constructor
  · rfl
  · exact fun h => JVal.noConfusion h

/-- Claim C9 (amended): re-importing an exported document always reproduces
the exact feature list; it reproduces the boundary whenever the exported
boundary is an array, and otherwise leaves the importing session's boundary
unchanged; and a bare FeatureCollection document is accepted, replacing only
the features. -/
theorem export_import_roundtrip (st other : SurveyState) :
    ((onImportModel (some (onExportModel st)) other).features = st.features)
    ∧ (∀ bs, st.boundary = .arr bs →
        onImportModel (some (onExportModel st)) other = st)
    ∧ ((∀ bs, st.boundary ≠ .arr bs) →
        (onImportModel (some (onExportModel st)) other).boundary = other.boundary)
    ∧ (∀ fs, onImportModel (some (.obj [("type", .str "FeatureCollection"),
        ("features", .arr fs)])) other = { other with features := fs }) := by
  obtain ⟨f, b⟩ := st
  refine ⟨?_, ?_, ?_, ?_⟩
  · cases b <;> rfl
  · intro bs hb
    cases hb
    rfl
  · intro hnb
    cases hb : b with
    | arr bs => exact absurd rfl (hb ▸ hnb bs)
    | null => rfl
    | bool x => rfl
    | num x => rfl
    | str x => rfl
    | obj x => rfl
  · intro fs
    rfl

/-- Witness for export_import_roundtrip: a concrete state with an array
boundary survives an export/import round trip into a different session. -/
theorem export_import_roundtrip_witness :
    onImportModel (some (onExportModel ⟨[JVal.num 2], JVal.arr []⟩))
        ⟨[], JVal.null⟩ = ⟨[JVal.num 2], JVal.arr []⟩ :=
  (export_import_roundtrip ⟨[JVal.num 2], JVal.arr []⟩ ⟨[], JVal.null⟩).2.1 [] rfl

/-- Claim C10: unparseable input, a type tag that is neither Survey nor
FeatureCollection, a non-string type tag, or a missing features array all
leave the state unchanged; a Survey document with a features array but a
non-array boundary replaces the features and keeps the boundary. -/
theorem import_rejects_invalid (doc : Option JVal) (st : SurveyState) :
    (doc = none → onImportModel doc st = st)
    ∧ (∀ data, doc = some data →
        (∀ fs, getField data "features" ≠ some (.arr fs)) →
        onImportModel doc st = st)
    ∧ (∀ data t, doc = some data → getField data "type" = some (.str t) →
        t ≠ "Survey" → t ≠ "FeatureCollection" → onImportModel doc st = st)
    ∧ (∀ data, doc = some data → (∀ s, getField data "type" ≠ some (.str s)) →
        onImportModel doc st = st)
    ∧ (∀ data fs, doc = some data →
        getField data "type" = some (.str "Survey") →
        getField data "features" = some (.arr fs) →
        (∀ bs, getField data "boundary" ≠ some (.arr bs)) →
        onImportModel doc st = { st with features := fs }) := by
  refine ⟨?_, ?_, ?_, ?_, ?_⟩
  · intro h
    subst h
    rfl
  · intro data hdoc hnf
    subst hdoc
    unfold onImportModel
    dsimp only
    cases hty : getField data "type" with
    | none => rfl
    | some v =>
      cases v with
      | str t =>
        cases hfe : getField data "features" with
        | none => rfl
        | some w =>
          cases w with
          | arr fs => exact absurd hfe (hnf fs)
          | null => rfl
          | bool x => rfl
          | num x => rfl
          | str x => rfl
          | obj x => rfl
      | null => rfl
      | bool x => rfl
      | num x => rfl
      | arr x => rfl
      | obj x => rfl
  · intro data t hdoc hty hne1 hne2
    subst hdoc
    unfold onImportModel
    dsimp only
    rw [hty]
    cases hfe : getField data "features" with
    | none => rfl
    | some w =>
      cases w with
      | arr fs =>
        dsimp only
        rw [if_neg hne1, if_neg hne2]
      | null => rfl
      | bool x => rfl
      | num x => rfl
      | str x => rfl
      | obj x => rfl
  · intro data hdoc hns
    subst hdoc
    unfold onImportModel
    dsimp only
    cases hty : getField data "type" with
    | none => rfl
    | some v =>
      cases v with
      | str t => exact absurd hty (hns t)
      | null => rfl
      | bool x => rfl
      | num x => rfl
      | arr x => rfl
      | obj x => rfl
  · intro data fs hdoc hty hfe hnb
    subst hdoc
    unfold onImportModel
    dsimp only
    rw [hty, hfe]
    dsimp only
    rw [if_pos rfl]
    cases hb : getField data "boundary" with
    | none => rfl
    | some w =>
      cases w with
      | arr bs => exact absurd hb (hnb bs)
      | null => rfl
      | bool x => rfl
      | num x => rfl
      | str x => rfl
      | obj x => rfl

/-- Witness for import_rejects_invalid: importing a bare number leaves a
concrete state unchanged. -/
theorem import_rejects_invalid_witness :
    onImportModel (some (JVal.num 5)) ⟨[], JVal.null⟩ = ⟨[], JVal.null⟩ :=
  (import_rejects_invalid (some (JVal.num 5)) ⟨[], JVal.null⟩).2.2.2.1
    (JVal.num 5) rfl (fun _ h => Option.noConfusion h)

end ParkingSurveyor
